import Mathlib

/-!
# osc-repeater: the fan-out skeleton of `main.go`

A shallow embedding of the Distributor / Sender / Receiver code of `main.go`.

* Go channels are modelled by `Chan` (capacity and FIFO buffer) with the send and
  receive rules of the Go language specification.
* Each goroutine is a step function: one call is one scheduling step of that
  goroutine.  What a `select` with several ready cases picks is an explicit
  argument (`SelectCase`), and the result of a transport write is an explicit
  argument as well, so every interleaving is an `Event` list.
* The control state of the goroutine that `NewSender` / `NewDistributor` starts
  is kept next to the struct it serves (`Sender.status`, `Distributor.pc`).
-/

namespace OscRepeater

/-! ## Data model -/

/-- One typed OSC argument (the payload is never inspected by `main.go`). -/
inductive Argument
  | int32 (v : Int)
  | int64 (v : Int)
  | str (v : String)
  | bool (v : Bool)
  | blob (v : List Nat)
  deriving DecidableEq, Repr

/-- The value behind `*osc.Message`: address pattern and typed arguments. -/
structure Message where
  Address : String
  Arguments : List Argument
  deriving DecidableEq, Repr

/-- The part of `context.Context` that `main.go` uses: whether `ctx.Done()` is closed. -/
structure Context where
  done : Bool
  deriving DecidableEq, Repr

/-- The value behind `netip.AddrPort`, as read by `t.Addr().String()` and `t.Port()`. -/
structure AddrPort where
  addr : String
  port : Nat
  deriving DecidableEq, Repr

/-- The value behind `*osc.Client`: the target endpoint, and the messages that were
passed to its `Send` so far (oldest first). -/
structure Client where
  ip : String
  port : Nat
  writes : List Message
  deriving DecidableEq, Repr

/-- `osc.NewClient(ip, port)`. -/
def NewClient (ip : String) (port : Nat) : Client :=
  { ip := ip, port := port, writes := [] }

/-- `c.Send(m)`: the transport write.  `result` is what the write returns
(`none` for a nil error); the write is recorded whether it fails or not. -/
def Client.Send (c : Client) (m : Message) (result : Option String) : Client × Option String :=
  ({ c with writes := c.writes ++ [m] }, result)

/-! ## Channels and select -/

/-- A Go channel of `*osc.Message`: its capacity and its buffered elements, oldest first. -/
structure Chan where
  dataqsiz : Nat
  buf : List Message
  deriving DecidableEq, Repr

/-- `make(chan *osc.Message, n)`; `make(chan *osc.Message)` is `Chan.make 0`. -/
def Chan.make (n : Nat) : Chan :=
  { dataqsiz := n, buf := [] }

/-- Outcome of the non-blocking send `select { case c <- m: default: }`. -/
inductive SendResult
  | handoff
  | queued (c : Chan)
  | wouldBlock
  deriving DecidableEq, Repr

/-- The non-blocking send `select { case c <- m: default: }`.  An unbuffered channel
accepts the value only when a receiver is waiting (the value goes straight to it); a
buffered channel accepts it when the buffer is not full; otherwise `default` runs. -/
def Chan.trySend (c : Chan) (receiverWaiting : Bool) (m : Message) : SendResult :=
  if c.dataqsiz = 0 then
    if receiverWaiting then .handoff else .wouldBlock
  else if c.buf.length < c.dataqsiz then
    .queued { c with buf := c.buf ++ [m] }
  else
    .wouldBlock

/-- The two cases of the `select` in both worker loops. -/
inductive SelectCase
  | recv
  | done
  deriving DecidableEq, Repr

/-- Worker state machine of the spec: `Running` or `Stopped`. -/
inductive Status
  | Running
  | Stopped
  deriving DecidableEq, Repr

/-! ## Sender -/

/-- The `Sender` struct (`ch`, `t`) with the state of the goroutine `go s.run(ctx)`
that `NewSender` starts for it. -/
structure Sender where
  ch : Chan
  t : Client
  status : Status
  deriving DecidableEq, Repr

/-- `NewSender(ctx, target)`: a channel of capacity 100 and a started worker. -/
def NewSender (_ctx : Context) (target : Client) : Sender :=
  { ch := Chan.make 100, t := target, status := .Running }

/-- `(s *Sender) Send(m)`: `select { case s.ch <- m: default: }`.  The function has
no result.  The worker takes messages from the buffer only, so no receiver is ever
counted as waiting on `s.ch`. -/
def Sender.Send (s : Sender) (m : Message) : Sender :=
  match s.ch.trySend false m with
  | .queued c => { s with ch := c }
  | .handoff => s
  | .wouldBlock => s

/-- True when `s.Send(m)` takes the `case s.ch <- m` branch. -/
def Sender.accepts (s : Sender) (m : Message) : Bool :=
  match s.ch.trySend false m with
  | .queued _ => true
  | .handoff => false
  | .wouldBlock => false

/-- One iteration of the loop of `(s *Sender) run(ctx)`:
`select { case m := <-s.ch: s.t.Send(m)  case <-ctx.Done(): return }`.
With no case ready the worker stays blocked; with both ready `pick` decides, as Go
chooses among the ready cases; the error returned by `s.t.Send(m)` is discarded. -/
def Sender.runStep (ctx : Context) (pick : SelectCase) (result : Option String)
    (s : Sender) : Sender :=
  match s.status with
  | .Stopped => s
  | .Running =>
    match s.ch.buf, ctx.done, pick with
    | [], false, _ => s
    | [], true, _ => { s with status := .Stopped }
    | m :: rest, false, _ =>
      { s with ch := { s.ch with buf := rest }, t := (s.t.Send m result).1 }
    | m :: rest, true, .recv =>
      { s with ch := { s.ch with buf := rest }, t := (s.t.Send m result).1 }
    | _ :: _, true, .done => { s with status := .Stopped }

/-- Consecutive iterations of the worker loop, one per element of `rs`
(the select choice and the transport result of that iteration). -/
def Sender.runSteps (ctx : Context) : List (SelectCase × Option String) → Sender → Sender
  | [], s => s
  | r :: rs, s => Sender.runSteps ctx rs (Sender.runStep ctx r.1 r.2 s)

/-- Every message accepted by the sender so far: the ones already passed to the
transport, followed by the ones still queued. -/
def Sender.history (s : Sender) : List Message :=
  s.t.writes ++ s.ch.buf

/-- What can happen to one Sender: a call of its `Send`, one iteration of its
worker, or the cancellation of the shared context. -/
inductive SenderEvent
  | Send (m : Message)
  | run (pick : SelectCase) (result : Option String)
  | cancel
  deriving DecidableEq, Repr

/-- One event on a Sender and its context. -/
def Sender.step (cs : Context × Sender) : SenderEvent → Context × Sender
  | .Send m => (cs.1, cs.2.Send m)
  | .run pick result => (cs.1, cs.2.runStep cs.1 pick result)
  | .cancel => ({ done := true }, cs.2)

/-- A whole schedule of events on a Sender. -/
def Sender.exec (cs : Context × Sender) : List SenderEvent → Context × Sender
  | [] => cs
  | e :: es => Sender.exec (Sender.step cs e) es

/-- The messages of the `Send` calls of a schedule that were accepted into the
queue, in call order. -/
def Sender.acceptedLog (cs : Context × Sender) : List SenderEvent → List Message
  | [] => []
  | .Send m :: es =>
    if cs.2.accepts m then m :: Sender.acceptedLog (Sender.step cs (.Send m)) es
    else Sender.acceptedLog (Sender.step cs (.Send m)) es
  | e :: es => Sender.acceptedLog (Sender.step cs e) es

/-! ## Distributor -/

/-- Control state of the goroutine `go d.run(ctx)`. -/
inductive DistPc
  | select
  | parked
  | got (m : Message)
  | range (m : Message) (k : Nat)
  | stopped
  deriving DecidableEq, Repr

/-- The `Distributor` struct (`senders`, `ch`) with the state of the goroutine
`go d.run(ctx)` and the messages it logged as "received message". -/
structure Distributor where
  senders : List Sender
  ch : Chan
  pc : DistPc
  received : List Message
  deriving DecidableEq, Repr

/-- `NewDistributor(ctx, targets)`: one Sender per target, appended in target order,
an unbuffered intake channel, and a started worker. -/
def NewDistributor (ctx : Context) (targets : List AddrPort) : Distributor :=
  { senders := targets.foldl
      (fun senders t => senders ++ [NewSender ctx (NewClient t.addr t.port)]) [],
    ch := Chan.make 0,
    pc := .select,
    received := [] }

/-- True when the worker is blocked in its `select`, ready to receive from `d.ch`. -/
def DistPc.waiting : DistPc → Bool
  | .parked => true
  | _ => false

/-- `(d *Distributor) Send(m)`: `select { case d.ch <- m: default: }`.  The function
has no result.  On a hand-off the blocked worker resumes with `m`. -/
def Distributor.Send (d : Distributor) (m : Message) : Distributor :=
  match d.ch.trySend d.pc.waiting m with
  | .handoff => { d with pc := .got m }
  | .queued c => { d with ch := c }
  | .wouldBlock => d

/-- The loop `for _, s := range d.senders { s.Send(m) }` as a whole. -/
def Distributor.fanout (m : Message) : List Sender → List Sender
  | [] => []
  | s :: rest => s.Send m :: Distributor.fanout m rest

/-- One scheduling step of `(d *Distributor) run(ctx)`.
At the `select` a buffered message or a closed `ctx.Done()` is taken (`pick` decides
when both are ready), otherwise the worker blocks; after a receive the message is
logged; then each step of the `range` loop calls `Send` on the sender at index `k`;
after the last sender the worker is back at the `select`. -/
def Distributor.runStep (ctx : Context) (pick : SelectCase) (d : Distributor) : Distributor :=
  match d.pc with
  | .stopped => d
  | .got m => { d with received := d.received ++ [m], pc := .range m 0 }
  | .range m k =>
    if k < d.senders.length then
      { d with senders := d.senders.modify (fun s => s.Send m) k, pc := .range m (k + 1) }
    else
      { d with pc := .select }
  | _ =>
    match d.ch.buf, ctx.done, pick with
    | [], false, _ => { d with pc := .parked }
    | [], true, _ => { d with pc := .stopped }
    | m :: rest, false, _ => { d with ch := { d.ch with buf := rest }, pc := .got m }
    | m :: rest, true, .recv => { d with ch := { d.ch with buf := rest }, pc := .got m }
    | _ :: _, true, .done => { d with pc := .stopped }

/-- Consecutive steps of the Distributor worker with nothing else scheduled between. -/
def Distributor.runSteps (ctx : Context) (pick : SelectCase) : Nat → Distributor → Distributor
  | 0, d => d
  | n + 1, d => Distributor.runSteps ctx pick n (Distributor.runStep ctx pick d)

/-! ## Receiver -/

/-- One entry of the `osc.StandardDispatcher`: an address pattern and the handler
registered for it.  A handler acts on the Distributor it was given. -/
structure MsgHandler where
  pattern : String
  handle : Message → Distributor → Distributor

/-- The value behind `*osc.Server`: listen address and dispatcher entries. -/
structure Server where
  Addr : String
  Dispatcher : List MsgHandler

/-- The `Receiver` struct. -/
structure Receiver where
  d : Distributor
  s : Server

/-- `NewReceiver(ctx, addr, d)`: registers one handler under `"*"` that calls
`d.Send(msg)`, and returns the pair `(&Receiver, nil)`.  `ListenAndServe` runs in a
goroutine of its own and has no part in the returned pair. -/
def NewReceiver (_ctx : Context) (addr : String) (d : Distributor) :
    Option Receiver × Option String :=
  let disp : List MsgHandler := [{ pattern := "*", handle := fun msg dd => dd.Send msg }]
  let svr : Server := { Addr := addr, Dispatcher := disp }
  (some { d := d, s := svr }, none)

/-- The loop of `main` over `cfg.ListenPorts` (main.go:67-72): `some` is the message
of the `logger.Sugar().Fatal` branch, `none` means every receiver was created. -/
def mainStartReceivers (ctx : Context) (d : Distributor) : List Int → Option String
  | [] => none
  | p :: ps =>
    match (NewReceiver ctx (":" ++ toString p) d).2 with
    | some err => some ("failed to start receiver:" ++ err)
    | none => mainStartReceivers ctx d ps

/-! ## The running system -/

/-- The shared context and the Distributor with its Senders. -/
structure System where
  ctx : Context
  d : Distributor
  deriving DecidableEq, Repr

/-- What the scheduler and the environment can do next. -/
inductive Event
  | cancel
  | handler (m : Message)
  | distributor (pick : SelectCase)
  | sender (i : Nat) (pick : SelectCase) (result : Option String)
  deriving DecidableEq, Repr

/-- Closing `ctx.Done()`: a worker blocked in its `select` is woken up by it, so it is
no longer a waiting receiver of the intake channel. -/
def System.cancel (sys : System) : System :=
  { ctx := { done := true },
    d := { sys.d with pc := match sys.d.pc with
                            | .parked => .select
                            | p => p } }

/-- One event of the running system. -/
def System.step (sys : System) : Event → System
  | .cancel => sys.cancel
  | .handler m => { sys with d := sys.d.Send m }
  | .distributor pick => { sys with d := sys.d.runStep sys.ctx pick }
  | .sender i pick result =>
    { sys with d := { sys.d with
        senders := sys.d.senders.modify (fun s => s.runStep sys.ctx pick result) i } }

/-- A whole schedule of events. -/
def System.exec (sys : System) : List Event → System
  | [] => sys
  | e :: es => System.exec (System.step sys e) es

/-- The system right after start-up: context not cancelled, `NewDistributor` done. -/
def System.init (targets : List AddrPort) : System :=
  { ctx := { done := false }, d := NewDistributor { done := false } targets }

/-- The messages taken from the intake whose fan-out has already reached the sender at
index `j`: while the `range` loop for the latest message is at index `k`, the senders
at `k` and beyond have not been offered that message yet. -/
def Distributor.offered (d : Distributor) (j : Nat) : List Message :=
  match d.pc with
  | .range _ k => if j < k then d.received else d.received.dropLast
  | _ => d.received

/-- Invariant of the running system: the message being fanned out is the latest one
logged, and what a sender has accepted is a subsequence of what it was offered. -/
def System.FanoutInv (sys : System) : Prop :=
  (∀ m k, sys.d.pc = .range m k → ∃ pre, sys.d.received = pre ++ [m]) ∧
  (∀ (j : Nat) (s : Sender), sys.d.senders[j]? = some s → List.Sublist s.history (sys.d.offered j))

/-! ## Theorems -/

/-! ### Channel and Sender basics -/

theorem Chan.trySend_buffered (c : Chan) (b : Bool) (m : Message) (h0 : c.dataqsiz ≠ 0) :
    c.trySend b m =
      if c.buf.length < c.dataqsiz then .queued { c with buf := c.buf ++ [m] }
      else .wouldBlock := by
  simp [Chan.trySend, h0]

theorem Sender.Send_of_room (s : Sender) (m : Message) (h : s.ch.buf.length < s.ch.dataqsiz) :
    s.Send m = { s with ch := { s.ch with buf := s.ch.buf ++ [m] } } := by
  have h0 : s.ch.dataqsiz ≠ 0 := by omega
  simp [Sender.Send, Chan.trySend_buffered _ _ _ h0, h]

theorem Sender.Send_of_full (s : Sender) (m : Message) (h : ¬ s.ch.buf.length < s.ch.dataqsiz) :
    s.Send m = s := by
  unfold Sender.Send Chan.trySend
  split_ifs <;> rfl

/-- C1: `Sender.Send` is drop-newest on a queue of capacity 100.  `NewSender` creates
the queue empty with capacity 100; for every queue `q`, target, worker status and
message `m`, `Send(m)` on a sender with queue `q` of capacity 100 yields the same
sender with `m` appended at the tail of `q` when `q` holds fewer than 100 messages, and
yields exactly the same sender (same items, same order, `m` discarded) when `q` holds
100 messages.  `Send` is a total function with no error result. -/
theorem Sender.Send_drop_newest (q : List Message) (t : Client) (st : Status) (m : Message) :
    (∀ ctx, (NewSender ctx t).ch = { dataqsiz := 100, buf := [] }) ∧
    (q.length < 100 →
      Sender.Send { ch := { dataqsiz := 100, buf := q }, t := t, status := st } m
        = { ch := { dataqsiz := 100, buf := q ++ [m] }, t := t, status := st }) ∧
    (q.length = 100 →
      Sender.Send { ch := { dataqsiz := 100, buf := q }, t := t, status := st } m
        = { ch := { dataqsiz := 100, buf := q }, t := t, status := st }) := by
  refine ⟨fun _ => rfl, fun h => ?_, fun h => ?_⟩
  · rw [Sender.Send_of_room _ _ (by simpa using h)]
  · rw [Sender.Send_of_full _ _ (by simp [h])]

/-- Witness for C1 at a queue holding one message. -/
theorem Sender.Send_drop_newest_witness :
    Sender.Send { ch := { dataqsiz := 100, buf := [⟨"/a", []⟩] },
                  t := NewClient "127.0.0.1" 8080, status := .Running } ⟨"/test", [.int32 42]⟩
      = { ch := { dataqsiz := 100, buf := [⟨"/a", []⟩, ⟨"/test", [.int32 42]⟩] },
          t := NewClient "127.0.0.1" 8080, status := .Running } :=
  (Sender.Send_drop_newest [⟨"/a", []⟩] (NewClient "127.0.0.1" 8080) .Running
    ⟨"/test", [.int32 42]⟩).2.1 (by decide)

/-! ### Fan-out -/

theorem Distributor.fanout_eq_map (m : Message) (l : List Sender) :
    Distributor.fanout m l = l.map (fun s => s.Send m) := by
  induction l with
  | nil => rfl
  | cons s rest ih => simp [Distributor.fanout, ih]

theorem Distributor.runSteps_succ (ctx : Context) (pick : SelectCase) (n : Nat) (d : Distributor) :
    Distributor.runSteps ctx pick (n + 1) d
      = Distributor.runStep ctx pick (Distributor.runSteps ctx pick n d) := by
  induction n generalizing d with
  | zero => rfl
  | succ n ih =>
    show Distributor.runSteps ctx pick (n + 1) (Distributor.runStep ctx pick d) = _
    rw [ih]
    rfl

theorem modify_visit {α : Type} (f : α → α) (l : List α) (j : Nat) (h : j < l.length) :
    ((l.take j).map f ++ l.drop j).modify f j = (l.take (j + 1)).map f ++ l.drop (j + 1) := by
  induction l generalizing j with
  | nil => simp at h
  | cons a l ih =>
    cases j with
    | zero => simp
    | succ j =>
      have hj : j < l.length := by simpa using h
      simpa using ih j hj

theorem Distributor.runSteps_visit (ctx : Context) (pick : SelectCase) (d : Distributor)
    (m : Message) (hgot : d.pc = .got m) (j : Nat) (hj : j ≤ d.senders.length) :
    Distributor.runSteps ctx pick (j + 1) d
      = { d with senders := (d.senders.take j).map (fun s => s.Send m) ++ d.senders.drop j,
                 received := d.received ++ [m],
                 pc := .range m j } := by
  induction j with
  | zero =>
    simp [Distributor.runSteps, Distributor.runStep, hgot]
  | succ j ih =>
    have hlt : j < d.senders.length := by omega
    rw [Distributor.runSteps_succ, ih (by omega)]
    have hlen : j < ((d.senders.take j).map (fun s => s.Send m) ++ d.senders.drop j).length := by
      simp; omega
    simp only [Distributor.runStep, if_pos hlen, modify_visit _ _ _ hlt]

theorem Distributor.runSteps_iteration (ctx : Context) (pick : SelectCase) (d : Distributor)
    (m : Message) (hgot : d.pc = .got m) :
    Distributor.runSteps ctx pick (d.senders.length + 2) d
      = { d with senders := Distributor.fanout m d.senders,
                 received := d.received ++ [m],
                 pc := .select } := by
  rw [Distributor.runSteps_succ, Distributor.runSteps_visit ctx pick d m hgot _ (le_refl _)]
  simp [Distributor.runStep, Distributor.fanout_eq_map]

theorem Sender.map_Send_of_room (m : Message) (l : List Sender)
    (hfree : ∀ s ∈ l, s.ch.dataqsiz = 100 ∧ s.ch.buf.length < 100) :
    l.map (fun s => s.Send m)
      = l.map (fun s => { s with ch := { s.ch with buf := s.ch.buf ++ [m] } }) := by
  apply List.map_congr_left
  intro s hs
  obtain ⟨hc, hl⟩ := hfree s hs
  exact Sender.Send_of_room s m (by omega)

theorem Distributor.runStep_visit_room (ctx : Context) (pick : SelectCase) (d : Distributor)
    (m : Message) (k : Nat) (s : Sender) (hpc : d.pc = .range m k)
    (hs : d.senders[k]? = some s) (hroom : s.ch.buf.length < s.ch.dataqsiz) :
    d.runStep ctx pick
      = { d with
            senders := d.senders.modify
              (fun x => { x with ch := { x.ch with buf := x.ch.buf ++ [m] } }) k,
            pc := .range m (k + 1) } := by
  have hk : k < d.senders.length := (List.getElem?_eq_some_iff.1 hs).1
  have hmod : d.senders.modify (fun x => x.Send m) k
      = d.senders.modify (fun x => { x with ch := { x.ch with buf := x.ch.buf ++ [m] } }) k := by
    apply List.ext_getElem?
    intro j
    simp only [List.getElem?_modify]
    by_cases hkj : k = j
    · subst hkj
      simp [hs, Sender.Send_of_room s m hroom]
    · simp [hkj]
  simp only [Distributor.runStep, hpc, if_pos hk, hmod]

/-- C2: fan-out completeness.  Let the Distributor worker have just taken message `m`
from the intake (`pc = got m`), and let every sender's queue have capacity 100 and
fewer than 100 pending messages.  Then the worker's iteration visits the senders in
list order: after `j + 1` of its steps exactly the first `j` senders have `m` appended
at the tail of their queue and the others are untouched; after `length + 2` steps the
worker is back at its `select` and every sender is the old sender with exactly one
copy of `m` appended at the tail of its queue, nothing else changed (the message is
also logged as received); the `range` loop as a whole is that same map; and in any
state of the worker, also with other workers scheduled in between, the step that
visits a sender with free capacity appends `m` to that sender's queue and changes no
other sender. -/
theorem Distributor.run_fanout_complete (ctx : Context) (pick : SelectCase) (d : Distributor)
    (m : Message) (hgot : d.pc = .got m)
    (hfree : ∀ s ∈ d.senders, s.ch.dataqsiz = 100 ∧ s.ch.buf.length < 100) :
    (∀ j, j ≤ d.senders.length →
      Distributor.runSteps ctx pick (j + 1) d
        = { d with
              senders := (d.senders.take j).map
                  (fun s => { s with ch := { s.ch with buf := s.ch.buf ++ [m] } })
                ++ d.senders.drop j,
              received := d.received ++ [m],
              pc := .range m j }) ∧
    Distributor.runSteps ctx pick (d.senders.length + 2) d
      = { d with
            senders := d.senders.map
              (fun s => { s with ch := { s.ch with buf := s.ch.buf ++ [m] } }),
            received := d.received ++ [m],
            pc := .select } ∧
    Distributor.fanout m d.senders
      = d.senders.map (fun s => { s with ch := { s.ch with buf := s.ch.buf ++ [m] } }) ∧
    (∀ (x : Distributor) (k : Nat) (s : Sender), x.pc = .range m k →
      x.senders[k]? = some s → s.ch.dataqsiz = 100 → s.ch.buf.length < 100 →
      x.runStep ctx pick
        = { x with
              senders := x.senders.modify
                (fun y => { y with ch := { y.ch with buf := y.ch.buf ++ [m] } }) k,
              pc := .range m (k + 1) }) := by
  refine ⟨fun j hj => ?_, ?_, ?_, fun x k s hpc hs hc hl =>
    Distributor.runStep_visit_room ctx pick x m k s hpc hs (by omega)⟩
  · rw [Distributor.runSteps_visit ctx pick d m hgot j hj,
      Sender.map_Send_of_room m (d.senders.take j)
        (fun s hs => hfree s (List.mem_of_mem_take hs))]
  · rw [Distributor.runSteps_iteration ctx pick d m hgot, Distributor.fanout_eq_map,
      Sender.map_Send_of_room m d.senders hfree]
  · rw [Distributor.fanout_eq_map, Sender.map_Send_of_room m d.senders hfree]

/-- Witness for C2: two fresh senders, message `/test 42`. -/
theorem Distributor.run_fanout_complete_witness :
    Distributor.fanout ⟨"/test", [.int32 42]⟩
        [NewSender ⟨false⟩ (NewClient "10.0.0.1" 9000), NewSender ⟨false⟩ (NewClient "10.0.0.2" 9000)]
      = [{ ch := { dataqsiz := 100, buf := [⟨"/test", [.int32 42]⟩] },
           t := NewClient "10.0.0.1" 9000, status := .Running },
         { ch := { dataqsiz := 100, buf := [⟨"/test", [.int32 42]⟩] },
           t := NewClient "10.0.0.2" 9000, status := .Running }] :=
  (Distributor.run_fanout_complete ⟨false⟩ .recv
    { senders := [NewSender ⟨false⟩ (NewClient "10.0.0.1" 9000),
                  NewSender ⟨false⟩ (NewClient "10.0.0.2" 9000)],
      ch := Chan.make 0, pc := .got ⟨"/test", [.int32 42]⟩, received := [] }
    ⟨"/test", [.int32 42]⟩ rfl
    (by intro s hs; simp [NewSender, Chan.make] at hs; rcases hs with rfl | rfl <;> simp)).2.2.1

/-- C4: target isolation.  Take two Distributor states whose worker has just taken the
same message `m`, with sender lists of the same length that agree at every position
other than `i`.  After one whole fan-out iteration (`length + 2` worker steps) the
worker is back at its `select` in both states, and every sender `j ≠ i` is the same in
both.  Moreover a sender at any position `j` that has free capacity ends the iteration
with `m` appended to its queue, whatever the other senders hold, so a saturated
sender visited earlier does not keep `m` from it. -/
theorem Distributor.run_target_isolation (ctx : Context) (pick : SelectCase)
    (d1 d2 : Distributor) (m : Message) (i : Nat)
    (h1 : d1.pc = .got m) (h2 : d2.pc = .got m)
    (hsame : ∀ j, j ≠ i → d1.senders[j]? = d2.senders[j]?) :
    (∀ j, j ≠ i →
      (Distributor.runSteps ctx pick (d1.senders.length + 2) d1).senders[j]?
        = (Distributor.runSteps ctx pick (d2.senders.length + 2) d2).senders[j]?) ∧
    (Distributor.runSteps ctx pick (d1.senders.length + 2) d1).pc = .select ∧
    (Distributor.runSteps ctx pick (d2.senders.length + 2) d2).pc = .select ∧
    (∀ (j : Nat) (s : Sender), d1.senders[j]? = some s → s.ch.buf.length < s.ch.dataqsiz →
      (Distributor.runSteps ctx pick (d1.senders.length + 2) d1).senders[j]?
        = some { s with ch := { s.ch with buf := s.ch.buf ++ [m] } }) := by
  rw [Distributor.runSteps_iteration ctx pick d1 m h1,
    Distributor.runSteps_iteration ctx pick d2 m h2]
  refine ⟨fun j hj => ?_, rfl, rfl, fun j s hs hroom => ?_⟩
  · simp only [Distributor.fanout_eq_map, List.getElem?_map, hsame j hj]
  · simp only [Distributor.fanout_eq_map, List.getElem?_map, hs, Option.map_some']
    rw [Sender.Send_of_room s m hroom]

/-- Witness for C4: sender 0 holds 100 messages in one state and none in the other;
sender 1 is empty in both and receives the message in the saturated state. -/
theorem Distributor.run_target_isolation_witness :
    (Distributor.runSteps ⟨false⟩ .recv 4
        { senders := [{ ch := { dataqsiz := 100, buf := List.replicate 100 ⟨"/old", []⟩ },
                        t := NewClient "10.0.0.1" 9000, status := .Running },
                      NewSender ⟨false⟩ (NewClient "10.0.0.2" 9000)],
          ch := Chan.make 0, pc := .got ⟨"/test", [.int32 42]⟩, received := [] }).senders[1]?
      = some { ch := { dataqsiz := 100, buf := [⟨"/test", [.int32 42]⟩] },
               t := NewClient "10.0.0.2" 9000, status := .Running } :=
  (Distributor.run_target_isolation ⟨false⟩ .recv
    { senders := [{ ch := { dataqsiz := 100, buf := List.replicate 100 ⟨"/old", []⟩ },
                    t := NewClient "10.0.0.1" 9000, status := .Running },
                  NewSender ⟨false⟩ (NewClient "10.0.0.2" 9000)],
      ch := Chan.make 0, pc := .got ⟨"/test", [.int32 42]⟩, received := [] }
    { senders := [NewSender ⟨false⟩ (NewClient "10.0.0.1" 9000),
                  NewSender ⟨false⟩ (NewClient "10.0.0.2" 9000)],
      ch := Chan.make 0, pc := .got ⟨"/test", [.int32 42]⟩, received := [] }
    ⟨"/test", [.int32 42]⟩ 0 rfl rfl
    (by intro j hj; cases j with
        | zero => exact absurd rfl hj
        | succ j => rfl)).2.2.2 1
    (NewSender ⟨false⟩ (NewClient "10.0.0.2" 9000)) rfl (by decide)

/-! ### One Sender and its worker -/

theorem Sender.history_runStep (ctx : Context) (pick : SelectCase) (result : Option String)
    (s : Sender) : (s.runStep ctx pick result).history = s.history := by
  obtain ⟨⟨cap, buf⟩, t, st⟩ := s
  obtain ⟨done⟩ := ctx
  cases st <;> cases buf <;> cases done <;> cases pick <;>
    simp [Sender.runStep, Sender.history, Client.Send]

theorem Sender.history_Send (s : Sender) (m : Message) :
    (s.Send m).history = if s.accepts m then s.history ++ [m] else s.history := by
  unfold Sender.Send Sender.accepts Chan.trySend
  split_ifs <;> simp_all [Sender.history]

theorem Sender.history_exec (cs : Context × Sender) (es : List SenderEvent) :
    (Sender.exec cs es).2.history = cs.2.history ++ Sender.acceptedLog cs es := by
  induction es generalizing cs with
  | nil => simp [Sender.exec, Sender.acceptedLog]
  | cons e es ih =>
    cases e with
    | Send m =>
      simp only [Sender.exec, Sender.acceptedLog, ih]
      by_cases ha : cs.2.accepts m <;> simp [Sender.step, Sender.history_Send, ha]
    | run pick result =>
      simp only [Sender.exec, Sender.acceptedLog, ih]
      simp [Sender.step, Sender.history_runStep]
    | cancel =>
      simp only [Sender.exec, Sender.acceptedLog, ih]
      simp [Sender.step]

theorem Sender.status_runStep_live (ctx : Context) (pick : SelectCase) (result : Option String)
    (s : Sender) (hd : ctx.done = false) (hs : s.status = .Running) :
    (s.runStep ctx pick result).status = .Running := by
  obtain ⟨⟨cap, buf⟩, t, st⟩ := s
  obtain ⟨done⟩ := ctx
  simp only at hd hs
  subst hd hs
  cases buf <;> simp [Sender.runStep]

theorem Sender.status_Send (s : Sender) (m : Message) : (s.Send m).status = s.status := by
  unfold Sender.Send
  split <;> rfl

theorem Sender.running_exec (cs : Context × Sender) (es : List SenderEvent)
    (h0 : cs.1.done = false → cs.2.status = .Running)
    (hd : (Sender.exec cs es).1.done = false) :
    (Sender.exec cs es).2.status = .Running := by
  induction es generalizing cs with
  | nil => exact h0 hd
  | cons e es ih =>
    apply ih (Sender.step cs e) _ hd
    cases e with
    | Send m => intro h; simpa [Sender.step, Sender.status_Send] using h0 h
    | run pick result =>
      intro h
      exact Sender.status_runStep_live _ _ _ _ h (h0 h)
    | cancel => intro h; simp [Sender.step] at h

theorem Sender.runSteps_drain (ctx : Context) (hd : ctx.done = false)
    (rs : List (SelectCase × Option String)) (s : Sender) (hs : s.status = .Running)
    (hlen : rs.length = s.ch.buf.length) :
    Sender.runSteps ctx rs s
      = { s with ch := { s.ch with buf := [] },
                 t := { s.t with writes := s.t.writes ++ s.ch.buf } } := by
  induction rs generalizing s with
  | nil =>
    obtain ⟨⟨cap, buf⟩, t, st⟩ := s
    have : buf = [] := by
      cases buf with
      | nil => rfl
      | cons a l => simp at hlen
    subst this
    simp [Sender.runSteps]
  | cons r rs ih =>
    obtain ⟨⟨cap, buf⟩, t, st⟩ := s
    obtain ⟨done⟩ := ctx
    simp only at hd hs
    subst hd hs
    cases buf with
    | nil => simp at hlen
    | cons a l =>
      have hl : rs.length = l.length := by simpa using hlen
      simp only [Sender.runSteps]
      have hstep : Sender.runStep ⟨false⟩ r.1 r.2 ⟨⟨cap, a :: l⟩, t, .Running⟩
          = ⟨⟨cap, l⟩, { t with writes := t.writes ++ [a] }, .Running⟩ := by
        simp [Sender.runStep, Client.Send]
      rw [hstep, ih _ rfl hl]
      simp

/-- C3: per-target FIFO.  Start from `NewSender` and run any schedule of `Send` calls,
worker iterations and cancellation.  At every point the messages passed to the
transport write followed by the messages still queued are exactly the messages that
`Send` accepted, in the order of acceptance (so the writes are an initial segment of
the accepted sequence, each message once, nothing reordered).  If the context has not
been cancelled (the worker is not stopped), then as many further worker iterations as
there are queued messages write all of them: the transport has then received exactly
the accepted sequence `M1..Mn` in order and the queue is empty, whatever the
transport results were. -/
theorem Sender.run_fifo (ctx0 : Context) (target : Client) (es : List SenderEvent) :
    ((Sender.exec (ctx0, NewSender ctx0 target) es).2.t.writes
        ++ (Sender.exec (ctx0, NewSender ctx0 target) es).2.ch.buf
      = target.writes ++ Sender.acceptedLog (ctx0, NewSender ctx0 target) es) ∧
    ((Sender.exec (ctx0, NewSender ctx0 target) es).1.done = false →
      ∀ rs : List (SelectCase × Option String),
        rs.length = (Sender.exec (ctx0, NewSender ctx0 target) es).2.ch.buf.length →
        (Sender.runSteps (Sender.exec (ctx0, NewSender ctx0 target) es).1 rs
            (Sender.exec (ctx0, NewSender ctx0 target) es).2).t.writes
          = target.writes ++ Sender.acceptedLog (ctx0, NewSender ctx0 target) es ∧
        (Sender.runSteps (Sender.exec (ctx0, NewSender ctx0 target) es).1 rs
            (Sender.exec (ctx0, NewSender ctx0 target) es).2).ch.buf = []) := by
  have hist := Sender.history_exec (ctx0, NewSender ctx0 target) es
  have hist0 : (NewSender ctx0 target).history = target.writes := by
    simp [Sender.history, NewSender, Chan.make]
  simp only [hist0] at hist
  refine ⟨hist, fun hd rs hlen => ?_⟩
  have hrun := Sender.running_exec (ctx0, NewSender ctx0 target) es (fun _ => rfl) hd
  rw [Sender.runSteps_drain _ hd rs _ hrun hlen]
  exact ⟨hist, rfl⟩

/-- Witness for C3: two messages are accepted, the first is written, a third is accepted,
and two more worker iterations (one of them with a failing write) deliver the rest. -/
theorem Sender.run_fifo_witness :
    (Sender.runSteps ⟨false⟩ [(.recv, some "unreachable"), (.done, none)]
        (Sender.exec (⟨false⟩, NewSender ⟨false⟩ (NewClient "10.0.0.1" 9000))
          [.Send ⟨"/a", []⟩, .Send ⟨"/b", []⟩, .run .recv none, .Send ⟨"/c", []⟩]).2).t.writes
      = [⟨"/a", []⟩, ⟨"/b", []⟩, ⟨"/c", []⟩] :=
  ((Sender.run_fifo ⟨false⟩ (NewClient "10.0.0.1" 9000)
      [.Send ⟨"/a", []⟩, .Send ⟨"/b", []⟩, .run .recv none, .Send ⟨"/c", []⟩]).2 rfl
    [(.recv, some "unreachable"), (.done, none)] rfl).1

/-! ### Transport failures -/

theorem Sender.runStep_result_irrelevant (ctx : Context) (pick : SelectCase)
    (r1 r2 : Option String) (s : Sender) :
    s.runStep ctx pick r1 = s.runStep ctx pick r2 := by
  obtain ⟨⟨cap, buf⟩, t, st⟩ := s
  obtain ⟨done⟩ := ctx
  cases st <;> cases buf <;> cases done <;> cases pick <;>
    simp [Sender.runStep, Client.Send]

theorem Sender.runStep_deliver (ctx : Context) (pick : SelectCase) (result : Option String)
    (s : Sender) (m : Message) (rest : List Message)
    (hrun : s.status = .Running) (hbuf : s.ch.buf = m :: rest)
    (hsel : ctx.done = false ∨ pick = .recv) :
    s.runStep ctx pick result
      = { s with ch := { s.ch with buf := rest },
                 t := { s.t with writes := s.t.writes ++ [m] } } := by
  obtain ⟨⟨cap, buf⟩, t, st⟩ := s
  obtain ⟨done⟩ := ctx
  simp only at hrun hbuf hsel
  subst hrun hbuf
  cases done <;> cases pick <;> simp_all [Sender.runStep, Client.Send]

/-- C7: transport failures are absorbed.  One worker iteration gives the same Sender
(queue, target, write record, status) whether the transport write returns an error or
nil, and the whole system state (Distributor, intake, every other Sender) is the same
too.  When the worker is Running and dequeues `m` (queue `m :: rest`, and the select
takes the receive case), the Sender afterwards has queue `rest`, the same target,
status Running and `m` recorded as written once: `m` is not put back.  If `rest` is
`m2 :: rest2`, the next iteration that takes the receive case dequeues `m2`. -/
theorem Sender.run_absorbs_write_failure (ctx : Context) (pick : SelectCase) (err : String)
    (s : Sender) (m : Message) (rest : List Message)
    (hrun : s.status = .Running) (hbuf : s.ch.buf = m :: rest)
    (hsel : ctx.done = false ∨ pick = .recv) :
    s.runStep ctx pick (some err) = s.runStep ctx pick none ∧
    (∀ (sys : System) (i : Nat),
      sys.step (.sender i pick (some err)) = sys.step (.sender i pick none)) ∧
    s.runStep ctx pick (some err)
      = { s with ch := { s.ch with buf := rest },
                 t := { s.t with writes := s.t.writes ++ [m] } } ∧
    (s.runStep ctx pick (some err)).status = .Running ∧
    (∀ (m2 : Message) (rest2 : List Message) (pick2 : SelectCase) (r2 : Option String),
      rest = m2 :: rest2 → (ctx.done = false ∨ pick2 = .recv) →
      (s.runStep ctx pick (some err)).runStep ctx pick2 r2
        = { s with ch := { s.ch with buf := rest2 },
                   t := { s.t with writes := s.t.writes ++ [m, m2] } }) := by
  have hstep := Sender.runStep_deliver ctx pick (some err) s m rest hrun hbuf hsel
  refine ⟨Sender.runStep_result_irrelevant _ _ _ _ _, fun sys i => ?_, hstep, ?_, ?_⟩
  · have hfun : (fun x : Sender => x.runStep sys.ctx pick (some err))
        = (fun x : Sender => x.runStep sys.ctx pick none) :=
      funext (fun x => Sender.runStep_result_irrelevant _ _ _ _ x)
    simp only [System.step, hfun]
  · rw [hstep]; exact hrun
  · intro m2 rest2 pick2 r2 hrest hsel2
    have h2 := Sender.runStep_deliver ctx pick2 r2
      { s with ch := { s.ch with buf := rest },
               t := { s.t with writes := s.t.writes ++ [m] } } m2 rest2 hrun hrest hsel2
    rw [hstep, h2]
    simp

/-- Witness for C7: queue `[/a, /b]`, the write of `/a` fails with "connection refused". -/
theorem Sender.run_absorbs_write_failure_witness :
    Sender.runStep ⟨false⟩ .recv (some "connection refused")
        { ch := { dataqsiz := 100, buf := [⟨"/a", []⟩, ⟨"/b", []⟩] },
          t := NewClient "10.0.0.1" 9000, status := .Running }
      = Sender.runStep ⟨false⟩ .recv none
        { ch := { dataqsiz := 100, buf := [⟨"/a", []⟩, ⟨"/b", []⟩] },
          t := NewClient "10.0.0.1" 9000, status := .Running } :=
  (Sender.run_absorbs_write_failure ⟨false⟩ .recv "connection refused"
    { ch := { dataqsiz := 100, buf := [⟨"/a", []⟩, ⟨"/b", []⟩] },
      t := NewClient "10.0.0.1" 9000, status := .Running }
    ⟨"/a", []⟩ [⟨"/b", []⟩] rfl rfl (Or.inl rfl)).1

/-! ### The running system -/

theorem foldl_append_singleton {α β : Type} (f : α → β) (l : List α) (acc : List β) :
    l.foldl (fun a t => a ++ [f t]) acc = acc ++ l.map f := by
  induction l generalizing acc with
  | nil => simp
  | cons x l ih => simp [ih]

theorem NewDistributor_senders (ctx : Context) (targets : List AddrPort) :
    (NewDistributor ctx targets).senders
      = targets.map (fun t => NewSender ctx (NewClient t.addr t.port)) := by
  simp [NewDistributor,
    foldl_append_singleton (fun t : AddrPort => NewSender ctx (NewClient t.addr t.port))]

theorem Distributor.Send_unbuffered (d : Distributor) (m : Message) (h : d.ch.dataqsiz = 0) :
    d.Send m = if d.pc.waiting then { d with pc := .got m } else d := by
  unfold Distributor.Send Chan.trySend
  split_ifs <;> simp_all

theorem Distributor.Send_senders (d : Distributor) (m : Message) :
    (d.Send m).senders = d.senders ∧ (d.Send m).received = d.received := by
  unfold Distributor.Send
  split <;> simp

theorem Distributor.Send_pc (d : Distributor) (m : Message) :
    (d.Send m).pc = d.pc ∨ (d.pc = .parked ∧ (d.Send m).pc = .got m) := by
  unfold Distributor.Send Chan.trySend
  split_ifs with h1 h2 h3
  · right
    refine ⟨?_, rfl⟩
    cases hp : d.pc <;> simp_all [DistPc.waiting]
  · left; rfl
  · left; rfl
  · left; rfl

theorem System.ch_step (sys : System) (e : Event) (h : sys.d.ch = Chan.make 0) :
    (sys.step e).d.ch = Chan.make 0 := by
  obtain ⟨⟨done⟩, ⟨senders, ch, pc, received⟩⟩ := sys
  simp only at h
  subst h
  cases e with
  | cancel => rfl
  | handler m =>
    simp only [System.step]
    rw [Distributor.Send_unbuffered _ _ rfl]
    split_ifs <;> rfl
  | distributor pick =>
    cases pc <;> cases done <;> simp [System.step, Distributor.runStep, Chan.make]
    all_goals split_ifs <;> rfl
  | sender i pick result => rfl

theorem System.ch_exec (sys : System) (es : List Event) (h : sys.d.ch = Chan.make 0) :
    (sys.exec es).d.ch = Chan.make 0 := by
  induction es generalizing sys with
  | nil => exact h
  | cons e es ih => exact ih _ (System.ch_step sys e h)

theorem System.quiet_step (sys : System) (e : Event)
    (h : sys.ctx.done = true → sys.d.pc.waiting = false) :
    (sys.step e).ctx.done = true → (sys.step e).d.pc.waiting = false := by
  obtain ⟨⟨done⟩, ⟨senders, ⟨cap, buf⟩, pc, received⟩⟩ := sys
  simp only at h
  cases e with
  | cancel =>
    intro _
    cases pc <;> rfl
  | handler m =>
    intro hd
    have hw := h hd
    rcases Distributor.Send_pc ⟨senders, ⟨cap, buf⟩, pc, received⟩ m with hp | ⟨hp, _⟩
    · simpa [System.step, hp] using hw
    · simp only at hp
      subst hp
      simp [DistPc.waiting] at hw
  | distributor pick =>
    intro hd
    simp only [System.step] at hd
    subst hd
    cases pc <;> cases buf <;> cases pick <;>
      simp [System.step, Distributor.runStep, DistPc.waiting]
    all_goals split_ifs <;> rfl
  | sender i pick result =>
    intro hd
    exact h hd

theorem System.quiet_exec (sys : System) (es : List Event)
    (h : sys.ctx.done = true → sys.d.pc.waiting = false) :
    (sys.exec es).ctx.done = true → (sys.exec es).d.pc.waiting = false := by
  induction es generalizing sys with
  | nil => exact h
  | cons e es ih => exact ih _ (System.quiet_step sys e h)

theorem Sender.history_Send_sublist (s : Sender) (m : Message) (pre : List Message)
    (h : List.Sublist s.history pre) : List.Sublist (s.Send m).history (pre ++ [m]) := by
  rw [Sender.history_Send]
  split_ifs
  · exact h.append_right [m]
  · exact List.sublist_append_of_sublist_left h

theorem Distributor.offered_sublist (d : Distributor) (j : Nat) :
    List.Sublist (d.offered j) d.received := by
  unfold Distributor.offered
  split
  · split_ifs
    · exact List.Sublist.refl _
    · exact List.dropLast_sublist _
  · exact List.Sublist.refl _

theorem System.fanoutInv_init (targets : List AddrPort) : (System.init targets).FanoutInv := by
  refine ⟨fun m k h => ?_, fun j s hs => ?_⟩
  · simp [System.init, NewDistributor] at h
  · have hmem : s ∈ (System.init targets).d.senders := List.getElem?_mem hs
    simp only [System.init, NewDistributor_senders, List.mem_map] at hmem
    obtain ⟨t, _, rfl⟩ := hmem
    simp [Sender.history, NewSender, NewClient, Chan.make]

theorem System.fanoutInv_step (sys : System) (e : Event) (h : sys.FanoutInv) :
    (sys.step e).FanoutInv := by
  obtain ⟨⟨done⟩, ⟨senders, ⟨cap, buf⟩, pc, received⟩⟩ := sys
  obtain ⟨h1, h2⟩ := h
  simp only [Distributor.offered] at h1 h2
  cases e with
  | cancel =>
    cases pc <;>
      exact ⟨by simp [System.step, System.cancel] at h1 ⊢ <;> exact h1,
        by simpa [System.step, System.cancel, Distributor.offered] using h2⟩
  | handler m =>
    have hs := Distributor.Send_senders ⟨senders, ⟨cap, buf⟩, pc, received⟩ m
    rcases Distributor.Send_pc ⟨senders, ⟨cap, buf⟩, pc, received⟩ m with hp | ⟨hp, hp2⟩
    · refine ⟨?_, ?_⟩
      · simpa only [System.step, hp, hs.2] using h1
      · simpa only [System.step, Distributor.offered, hp, hs.1, hs.2] using h2
    · simp only at hp
      subst hp
      refine ⟨?_, ?_⟩
      · intro m2 k hk
        simp only [System.step, hp2] at hk
        cases hk
      · simpa only [System.step, Distributor.offered, hp2, hs.1, hs.2] using h2
  | distributor pick =>
    cases pc with
    | stopped => exact ⟨h1, h2⟩
    | got m =>
      refine ⟨?_, ?_⟩
      · intro m2 k hk
        simp only [System.step, Distributor.runStep, DistPc.range.injEq] at hk
        exact ⟨received, by simp [System.step, Distributor.runStep, hk.1]⟩
      · intro j s hs
        simpa [System.step, Distributor.runStep, Distributor.offered] using h2 j s hs
    | range m k =>
      obtain ⟨pre, hpre⟩ := h1 m k rfl
      subst hpre
      by_cases hk : k < senders.length
      · refine ⟨?_, ?_⟩
        · intro m2 k2 hk2
          simp only [System.step, Distributor.runStep, if_pos hk, DistPc.range.injEq] at hk2
          exact ⟨pre, by simp [System.step, Distributor.runStep, if_pos hk, hk2.1]⟩
        · intro j s hs
          simp only [System.step, Distributor.runStep, if_pos hk, List.getElem?_modify] at hs
          simp only [System.step, Distributor.runStep, if_pos hk, Distributor.offered]
          cases hold : senders[j]? with
          | none => simp [hold] at hs
          | some s0 =>
            have h0 := h2 j s0 hold
            simp only [hold, Option.map_eq_map, Option.map_some', Option.some.injEq] at hs
            by_cases hkj : k = j
            · subst hkj
              simp only [if_true] at hs
              subst hs
              simp only [lt_irrefl, if_false, List.dropLast_concat] at h0
              simpa using Sender.history_Send_sublist s0 m pre h0
            · simp only [if_neg hkj] at hs
              subst hs
              by_cases hjk : j < k
              · have : j < k + 1 := by omega
                simpa [hjk, this] using h0
              · have : ¬ j < k + 1 := by omega
                simpa [hjk, this] using h0
      · refine ⟨?_, ?_⟩
        · intro m2 k2 hk2
          simp [System.step, Distributor.runStep, if_neg hk] at hk2
        · intro j s hs
          simp only [System.step, Distributor.runStep, if_neg hk] at hs
          simp only [System.step, Distributor.runStep, if_neg hk, Distributor.offered]
          have h0 := h2 j s hs
          have hj : j < k := by
            have := (List.getElem?_eq_some_iff.1 hs).1
            omega
          simpa [hj] using h0
    | select =>
      cases buf <;> cases done <;> cases pick <;>
        exact ⟨by simp [System.step, Distributor.runStep],
          by simpa [System.step, Distributor.runStep, Distributor.offered] using h2⟩
    | parked =>
      cases buf <;> cases done <;> cases pick <;>
        exact ⟨by simp [System.step, Distributor.runStep],
          by simpa [System.step, Distributor.runStep, Distributor.offered] using h2⟩
  | sender i pick result =>
    refine ⟨h1, ?_⟩
    intro j s hs
    simp only [System.step, List.getElem?_modify] at hs
    cases hold : senders[j]? with
    | none => simp [hold] at hs
    | some s0 =>
      have h0 := h2 j s0 hold
      simp only [hold, Option.map_eq_map, Option.map_some', Option.some.injEq] at hs
      have hh : s.history = s0.history := by
        subst hs
        split_ifs
        · exact Sender.history_runStep _ _ _ _
        · rfl
      simpa only [System.step, Distributor.offered, hh] using h0

theorem System.fanoutInv_exec (sys : System) (es : List Event) (h : sys.FanoutInv) :
    (sys.exec es).FanoutInv := by
  induction es generalizing sys with
  | nil => exact h
  | cons e es ih => exact ih _ (System.fanoutInv_step sys e h)

theorem System.history_sublist_received (targets : List AddrPort) (es : List Event)
    (j : Nat) (s : Sender) (hs : ((System.init targets).exec es).d.senders[j]? = some s) :
    List.Sublist s.history ((System.init targets).exec es).d.received :=
  (((System.init targets).fanoutInv_exec es (System.fanoutInv_init targets)).2 j s hs).trans
    (Distributor.offered_sublist _ _)

theorem pair_sublist_of_sublist {α : Type} {l r : List α} (h : List.Sublist l r)
    (hnd : r.Nodup) (a b : α) (hab : List.Sublist [a, b] r) (ha : a ∈ l) (hb : b ∈ l) :
    List.Sublist [a, b] l := by
  induction h with
  | slnil => simp at ha
  | @cons l r x hlr ih =>
    have hx : x ∉ r := (List.nodup_cons.1 hnd).1
    have har : a ∈ r := hlr.subset ha
    rcases List.sublist_cons_iff.1 hab with h' | ⟨t, ht, _⟩
    · exact ih (List.nodup_cons.1 hnd).2 h' ha hb
    · cases ht
      exact absurd har hx
  | @cons₂ l r x hlr ih =>
    have hx : x ∉ r := (List.nodup_cons.1 hnd).1
    rcases List.sublist_cons_iff.1 hab with h' | ⟨t, ht, h'⟩
    · have har : a ∈ r := h'.subset (by simp)
      have hbr : b ∈ r := h'.subset (by simp)
      have ha' : a ∈ l := by
        rcases List.mem_cons.1 ha with rfl | h
        · exact absurd har hx
        · exact h
      have hb' : b ∈ l := by
        rcases List.mem_cons.1 hb with rfl | h
        · exact absurd hbr hx
        · exact h
      exact (ih (List.nodup_cons.1 hnd).2 h' ha' hb').cons x
    · cases ht
      have hbr : b ∈ r := h'.subset (by simp)
      have hb' : b ∈ l := by
        rcases List.mem_cons.1 hb with rfl | h
        · exact absurd hbr hx
        · exact h
      exact List.cons_sublist_cons.2 (List.singleton_sublist.2 hb')

theorem pair_sublist_left {α : Type} {w q : List α} (hnd : (w ++ q).Nodup) (a b : α)
    (hab : List.Sublist [a, b] (w ++ q)) (hb : b ∈ w) : List.Sublist [a, b] w := by
  induction w with
  | nil => simp at hb
  | cons x w ih =>
    have hx : x ∉ w ++ q := (List.nodup_cons.1 hnd).1
    have hnd' : (w ++ q).Nodup := (List.nodup_cons.1 hnd).2
    rcases List.sublist_cons_iff.1 hab with h' | ⟨t, ht, h'⟩
    · have hbq : b ∈ w ++ q := h'.subset (by simp)
      have hb' : b ∈ w := by
        rcases List.mem_cons.1 hb with rfl | h
        · exact absurd hbq hx
        · exact h
      exact (ih hnd' h' hb').cons x
    · cases ht
      have hbq : b ∈ w ++ q := h'.subset (by simp)
      have hb' : b ∈ w := by
        rcases List.mem_cons.1 hb with rfl | h
        · exact absurd hbq hx
        · exact h
      exact List.cons_sublist_cons.2 (List.singleton_sublist.2 hb')

theorem Sender.Send_t_status (s : Sender) (m : Message) :
    (s.Send m).t = s.t ∧ (s.Send m).status = s.status := by
  unfold Sender.Send
  split <;> exact ⟨rfl, rfl⟩

theorem Sender.runStep_stopped (ctx : Context) (pick : SelectCase) (result : Option String)
    (s : Sender) (h : s.status = .Stopped) : s.runStep ctx pick result = s := by
  unfold Sender.runStep
  rw [h]

theorem Sender.runStep_cancelled (pick : SelectCase) (result : Option String) (s : Sender)
    (hrun : s.status = .Running) :
    (s.ch.buf = [] ∨ pick = .done →
      s.runStep ⟨true⟩ pick result = { s with status := .Stopped }) ∧
    (s.runStep ⟨true⟩ pick result = { s with status := .Stopped } ∨
      ∃ m rest, pick = .recv ∧ s.ch.buf = m :: rest ∧
        s.runStep ⟨true⟩ pick result
          = { s with ch := { s.ch with buf := rest },
                     t := { s.t with writes := s.t.writes ++ [m] } }) := by
  obtain ⟨⟨cap, buf⟩, t, st⟩ := s
  simp only at hrun
  subst hrun
  cases buf with
  | nil => cases pick <;> simp [Sender.runStep]
  | cons a l =>
    cases pick with
    | recv =>
      refine ⟨fun h => by simp at h, Or.inr ⟨a, l, rfl, rfl, ?_⟩⟩
      simp [Sender.runStep, Client.Send]
    | done => simp [Sender.runStep]

theorem Distributor.worker_stopped (ctx : Context) (pick : SelectCase) (d : Distributor)
    (h : d.pc = .stopped) : d.runStep ctx pick = d := by
  unfold Distributor.runStep
  rw [h]

theorem Distributor.runStep_senders (ctx : Context) (pick : SelectCase) (d : Distributor) :
    (d.runStep ctx pick).senders = d.senders ∨
      ∃ m k, (d.runStep ctx pick).senders = d.senders.modify (fun s => s.Send m) k := by
  obtain ⟨senders, ⟨cap, buf⟩, pc, received⟩ := d
  obtain ⟨done⟩ := ctx
  cases pc with
  | range m k =>
    by_cases hk : k < senders.length
    · right
      exact ⟨m, k, by simp [Distributor.runStep, hk]⟩
    · left
      simp [Distributor.runStep, hk]
  | stopped => left; rfl
  | got m => left; rfl
  | select => left; cases buf <;> cases done <;> cases pick <;> rfl
  | parked => left; cases buf <;> cases done <;> cases pick <;> rfl

theorem Distributor.worker_cancelled (pick : SelectCase) (d : Distributor)
    (hbuf : d.ch.buf = []) :
    (d.pc = .select → (d.runStep ⟨true⟩ pick).pc = .stopped) ∧
    (∀ m, (d.runStep ⟨true⟩ pick).pc = .got m → d.pc = .got m) := by
  obtain ⟨senders, ⟨cap, buf⟩, pc, received⟩ := d
  simp only at hbuf
  subst hbuf
  cases pc <;> simp [Distributor.runStep]
  all_goals split_ifs <;> simp

theorem System.stopped_sender_step (sys : System) (e : Event) (j : Nat) (s : Sender)
    (hs : sys.d.senders[j]? = some s) (hst : s.status = .Stopped) :
    ∃ s2, (sys.step e).d.senders[j]? = some s2 ∧ s2.status = .Stopped ∧ s2.t = s.t := by
  cases e with
  | cancel => exact ⟨s, hs, hst, rfl⟩
  | handler m =>
    refine ⟨s, ?_, hst, rfl⟩
    simp only [System.step, (Distributor.Send_senders sys.d m).1, hs]
  | distributor pick =>
    rcases Distributor.runStep_senders sys.ctx pick sys.d with h | ⟨m, k, h⟩
    · exact ⟨s, by simp only [System.step, h, hs], hst, rfl⟩
    · by_cases hkj : k = j
      · refine ⟨s.Send m, ?_, ?_, ?_⟩
        · simp [System.step, h, List.getElem?_modify, hs, hkj]
        · rw [(Sender.Send_t_status s m).2, hst]
        · exact (Sender.Send_t_status s m).1
      · refine ⟨s, ?_, hst, rfl⟩
        simp [System.step, h, List.getElem?_modify, hs, hkj]
  | sender i pick result =>
    refine ⟨s, ?_, hst, rfl⟩
    by_cases hij : i = j
    · simp [System.step, List.getElem?_modify, hs, hij, Sender.runStep_stopped _ _ _ s hst]
    · simp [System.step, List.getElem?_modify, hs, hij]

theorem System.stopped_distributor_step (sys : System) (e : Event) (h : sys.d.pc = .stopped) :
    (sys.step e).d.pc = .stopped := by
  cases e with
  | cancel => simp [System.step, System.cancel, h]
  | handler m =>
    rcases Distributor.Send_pc sys.d m with hp | ⟨hp, _⟩
    · simp only [System.step, hp, h]
    · rw [h] at hp
      cases hp
  | distributor pick => simp only [System.step, Distributor.worker_stopped _ _ _ h, h]
  | sender i pick result => exact h

theorem System.done_step (sys : System) (e : Event) (h : sys.ctx.done = true) :
    (sys.step e).ctx.done = true := by
  cases e <;> first | exact h | rfl

/-! ### Shutdown -/

/-- C5, as stated, fails: one target, the message `/test 42` is handed to the
Distributor worker and fanned out into the sender's queue, then the context is
cancelled.  The sender is still Running with the message queued and nothing written;
its next iteration, with the select taking the receive case (both cases are ready),
passes the queued message to the transport write after the cancellation. -/
theorem System.shutdown_write_counterexample :
    ((System.init [⟨"10.0.0.1", 9000⟩]).exec
        [.distributor .recv, .handler ⟨"/test", [.int32 42]⟩, .distributor .recv,
         .distributor .recv, .cancel]).ctx.done = true ∧
    ((System.init [⟨"10.0.0.1", 9000⟩]).exec
        [.distributor .recv, .handler ⟨"/test", [.int32 42]⟩, .distributor .recv,
         .distributor .recv, .cancel]).d.senders.map
          (fun s => (s.status, s.ch.buf, s.t.writes))
      = [(.Running, [⟨"/test", [.int32 42]⟩], [])] ∧
    (((System.init [⟨"10.0.0.1", 9000⟩]).exec
        [.distributor .recv, .handler ⟨"/test", [.int32 42]⟩, .distributor .recv,
         .distributor .recv, .cancel]).step (.sender 0 .recv none)).d.senders.map
          (fun s => (s.status, s.ch.buf, s.t.writes))
      = [(.Running, [], [⟨"/test", [.int32 42]⟩])] := by
  decide

/-- C5, amended.  Let `sys` be the state after any schedule from start-up in which the
cancellation signal has been raised.  Then: the signal stays raised; every
`Distributor.Send` is dropped and no event makes the Distributor worker take a new
message from the intake; a Distributor worker at its `select` stops at its next step; a
Running Sender worker stops without writing and without touching its queue when its
queue is empty or its select takes the Done case, and otherwise (queue non-empty,
select takes the receive case) writes the head of its queue.  For every state: a
Stopped Distributor worker stays Stopped under every event and its step changes
nothing; a Stopped Sender worker's iteration changes nothing, and under every event it
stays Stopped with the same transport record (no write, no flush). -/
theorem System.shutdown (targets : List AddrPort) (es : List Event) (sys : System)
    (hreach : sys = (System.init targets).exec es) (hdone : sys.ctx.done = true) :
    (∀ e, (sys.step e).ctx.done = true) ∧
    (∀ m, sys.d.Send m = sys.d) ∧
    (∀ e m, (sys.step e).d.pc = .got m → sys.d.pc = .got m) ∧
    (sys.d.pc = .select → ∀ pick, (sys.d.runStep sys.ctx pick).pc = .stopped) ∧
    (∀ (j : Nat) (s : Sender) (pick : SelectCase) (result : Option String),
      sys.d.senders[j]? = some s → s.status = .Running →
      (s.ch.buf = [] ∨ pick = .done →
        s.runStep sys.ctx pick result = { s with status := .Stopped }) ∧
      (s.runStep sys.ctx pick result = { s with status := .Stopped } ∨
        ∃ m rest, pick = .recv ∧ s.ch.buf = m :: rest ∧
          s.runStep sys.ctx pick result
            = { s with ch := { s.ch with buf := rest },
                       t := { s.t with writes := s.t.writes ++ [m] } })) ∧
    (∀ (x : System) (e : Event), x.d.pc = .stopped → (x.step e).d.pc = .stopped) ∧
    (∀ (d : Distributor) (ctx : Context) (pick : SelectCase),
      d.pc = .stopped → d.runStep ctx pick = d) ∧
    (∀ (s : Sender) (ctx : Context) (pick : SelectCase) (result : Option String),
      s.status = .Stopped → s.runStep ctx pick result = s) ∧
    (∀ (x : System) (e : Event) (j : Nat) (s : Sender),
      x.d.senders[j]? = some s → s.status = .Stopped →
      ∃ s2, (x.step e).d.senders[j]? = some s2 ∧ s2.status = .Stopped ∧ s2.t = s.t) := by
  have hch : sys.d.ch = Chan.make 0 := by
    rw [hreach]; exact System.ch_exec _ es rfl
  have hquiet : sys.d.pc.waiting = false := by
    rw [hreach] at hdone ⊢
    exact System.quiet_exec _ es (fun h => by simp [System.init] at h) hdone
  have hctx : sys.ctx = ⟨true⟩ := by
    cases hc : sys.ctx with
    | mk done => rw [hc] at hdone; simp only at hdone; rw [hdone]
  have hsend : ∀ m, sys.d.Send m = sys.d := by
    intro m
    rw [Distributor.Send_unbuffered _ _ (by rw [hch]; rfl), hquiet]
    rfl
  have hbuf : sys.d.ch.buf = [] := by rw [hch]; rfl
  refine ⟨fun e => System.done_step sys e hdone, hsend, ?_, ?_, ?_,
    System.stopped_distributor_step, fun d ctx pick h => Distributor.worker_stopped ctx pick d h,
    fun s ctx pick result h => Sender.runStep_stopped ctx pick result s h,
    System.stopped_sender_step⟩
  · intro e m hgot
    cases e with
    | cancel =>
      cases hp : sys.d.pc <;> simp_all [System.step, System.cancel]
    | handler m2 => simpa only [System.step, hsend m2] using hgot
    | distributor pick =>
      simp only [System.step, hctx] at hgot
      exact (Distributor.worker_cancelled pick sys.d hbuf).2 m hgot
    | sender i pick result => exact hgot
  · intro hsel pick
    rw [hctx]
    exact (Distributor.worker_cancelled pick sys.d hbuf).1 hsel
  · intro j s pick result _ hrun
    rw [hctx]
    exact Sender.runStep_cancelled pick result s hrun

/-- Witness for C5 (amended): after the message was fanned out and the context
cancelled, a call of `Distributor.Send` leaves the Distributor unchanged. -/
theorem System.shutdown_witness :
    ((System.init [⟨"10.0.0.1", 9000⟩]).exec
        [.distributor .recv, .handler ⟨"/test", [.int32 42]⟩, .distributor .recv,
         .distributor .recv, .cancel]).d.Send ⟨"/late", []⟩
      = ((System.init [⟨"10.0.0.1", 9000⟩]).exec
        [.distributor .recv, .handler ⟨"/test", [.int32 42]⟩, .distributor .recv,
         .distributor .recv, .cancel]).d :=
  (System.shutdown [⟨"10.0.0.1", 9000⟩]
    [.distributor .recv, .handler ⟨"/test", [.int32 42]⟩, .distributor .recv,
     .distributor .recv, .cancel] _ rfl rfl).2.1 ⟨"/late", []⟩

/-! ### Intake hand-off -/

/-- C6: `Distributor.Send` is a zero-capacity, drop-on-busy hand-off.  `NewDistributor`
makes the intake with capacity 0 and in every execution it stays an empty channel of
capacity 0 (it never holds a buffered message).  For a Distributor whose intake has
capacity 0 and every message `m`: if the worker is not blocked in its `select` waiting
to receive, `Send(m)` leaves the whole Distributor (intake, worker, log and every
sender's queue) unchanged, so `m` is dropped; if the worker is waiting, `Send(m)` hands
exactly `m` to it and changes nothing else.  `Send` is total and has no error result. -/
theorem Distributor.Send_zero_capacity (d : Distributor) (m : Message)
    (hcap : d.ch.dataqsiz = 0) :
    (d.pc.waiting = false → d.Send m = d) ∧
    (d.pc.waiting = true → d.Send m = { d with pc := .got m }) ∧
    (d.Send m).ch = d.ch ∧
    (∀ (targets : List AddrPort) (es : List Event),
      ((System.init targets).exec es).d.ch = { dataqsiz := 0, buf := [] }) := by
  have h := Distributor.Send_unbuffered d m hcap
  refine ⟨fun hw => ?_, fun hw => ?_, ?_, fun targets es => System.ch_exec _ es rfl⟩
  · rw [h, hw]; rfl
  · rw [h, hw]; rfl
  · rw [h]; split_ifs <;> rfl

/-- Witness for C6: right after start-up the worker has not reached its `select`, so
the message is dropped. -/
theorem Distributor.Send_zero_capacity_witness :
    (NewDistributor ⟨false⟩ [⟨"10.0.0.1", 9000⟩]).Send ⟨"/test", [.int32 42]⟩
      = NewDistributor ⟨false⟩ [⟨"10.0.0.1", 9000⟩] :=
  (Distributor.Send_zero_capacity (NewDistributor ⟨false⟩ [⟨"10.0.0.1", 9000⟩])
    ⟨"/test", [.int32 42]⟩ rfl).1 rfl

/-! ### Receiver -/

/-- C8: the Listener forwards everything unconditionally.  `NewReceiver` registers
exactly one handler, under the pattern `"*"`; for every message and every Distributor
state that handler does exactly what `Distributor.Send` does with that same message;
so for any two address patterns and the same arguments, a Distributor whose worker is
waiting on its capacity-0 intake receives each message unchanged. -/
theorem NewReceiver_forwards_everything (ctx : Context) (addr : String) (d : Distributor) :
    (NewReceiver ctx addr d).1.map (fun r => r.s.Dispatcher.map (fun h => h.pattern))
      = some ["*"] ∧
    (∀ r, (NewReceiver ctx addr d).1 = some r → ∀ h ∈ r.s.Dispatcher,
      ∀ (msg : Message) (dd : Distributor), h.handle msg dd = dd.Send msg) ∧
    (∀ r, (NewReceiver ctx addr d).1 = some r → ∀ h ∈ r.s.Dispatcher,
      ∀ (a1 a2 : String) (args : List Argument) (dd : Distributor),
        dd.ch.dataqsiz = 0 → dd.pc.waiting = true →
        h.handle ⟨a1, args⟩ dd = { dd with pc := .got ⟨a1, args⟩ } ∧
        h.handle ⟨a2, args⟩ dd = { dd with pc := .got ⟨a2, args⟩ }) := by
  refine ⟨rfl, ?_, ?_⟩
  · intro r hr h hh msg dd
    simp only [NewReceiver, Option.some.injEq] at hr
    subst hr
    simp only [List.mem_singleton] at hh
    subst hh
    rfl
  · intro r hr h hh a1 a2 args dd hcap hw
    simp only [NewReceiver, Option.some.injEq] at hr
    subst hr
    simp only [List.mem_singleton] at hh
    subst hh
    simp only [Distributor.Send_unbuffered _ _ hcap, hw, if_true, and_self]

/-- Witness for C8: one handler, registered under `"*"`. -/
theorem NewReceiver_forwards_everything_witness :
    (NewReceiver ⟨false⟩ ":8000" (NewDistributor ⟨false⟩ [⟨"10.0.0.1", 9000⟩])).1.map
        (fun r => r.s.Dispatcher.map (fun h => h.pattern)) = some ["*"] :=
  (NewReceiver_forwards_everything ⟨false⟩ ":8000"
    (NewDistributor ⟨false⟩ [⟨"10.0.0.1", 9000⟩])).1

/-- C10: `NewReceiver` never reports a failure through its return value: for every
context, address and Distributor it returns a Receiver and a nil error, and the loop of
`main` over the listen ports therefore never takes its `Fatal` branch, whatever the
ports are. -/
theorem NewReceiver_never_fails (ctx : Context) (addr : String) (d : Distributor) :
    (NewReceiver ctx addr d).2 = none ∧
    (NewReceiver ctx addr d).1.isSome = true ∧
    (∀ ports : List Int, mainStartReceivers ctx d ports = none) := by
  refine ⟨rfl, rfl, fun ports => ?_⟩
  induction ports with
  | nil => rfl
  | cons p ps ih => simpa [mainStartReceivers, NewReceiver] using ih

/-! ### Order across targets -/

/-- C9: consistent relative order across targets.  After any schedule from start-up
(all queues empty), for every sender the messages it ever enqueued (those written
followed by those still queued) are a subsequence of the messages the Distributor took
from its intake, in intake order, and so are the messages it has written.  Hence, when
the intake messages are pairwise distinct and `a` was taken before `b`, every sender
that enqueued both enqueued `a` before `b`, and if it has written `b` it wrote `a`
before `b`. -/
theorem System.consistent_order (targets : List AddrPort) (es : List Event) :
    (∀ (j : Nat) (s : Sender), ((System.init targets).exec es).d.senders[j]? = some s →
      List.Sublist (s.t.writes ++ s.ch.buf) ((System.init targets).exec es).d.received ∧
      List.Sublist s.t.writes ((System.init targets).exec es).d.received) ∧
    (((System.init targets).exec es).d.received.Nodup →
      ∀ (j : Nat) (s : Sender) (a b : Message),
        ((System.init targets).exec es).d.senders[j]? = some s →
        List.Sublist [a, b] ((System.init targets).exec es).d.received →
        a ∈ s.t.writes ++ s.ch.buf → b ∈ s.t.writes ++ s.ch.buf →
        List.Sublist [a, b] (s.t.writes ++ s.ch.buf) ∧
        (b ∈ s.t.writes → List.Sublist [a, b] s.t.writes)) := by
  refine ⟨fun j s hs => ?_, fun hnd j s a b hs hab ha hb => ?_⟩
  · have h := System.history_sublist_received targets es j s hs
    exact ⟨h, (List.sublist_append_left _ _).trans h⟩
  · have h := System.history_sublist_received targets es j s hs
    have hpair := pair_sublist_of_sublist h hnd a b hab ha hb
    exact ⟨hpair, fun hbw => pair_sublist_left (h.nodup hnd) a b hpair hbw⟩

/-- Witness for C9: two targets and two messages; the first sender has written `/a`
and still queues `/b`, both in intake order. -/
theorem System.consistent_order_witness :
    List.Sublist [⟨"/a", []⟩, ⟨"/b", []⟩]
      ((System.init [⟨"10.0.0.1", 9000⟩, ⟨"10.0.0.2", 9001⟩]).exec
        [.distributor .recv, .handler ⟨"/a", []⟩, .distributor .recv, .distributor .recv,
         .sender 0 .recv none, .distributor .recv, .distributor .recv, .distributor .recv,
         .handler ⟨"/b", []⟩, .distributor .recv, .distributor .recv]).d.received :=
  ((System.consistent_order [⟨"10.0.0.1", 9000⟩, ⟨"10.0.0.2", 9001⟩]
      [.distributor .recv, .handler ⟨"/a", []⟩, .distributor .recv, .distributor .recv,
       .sender 0 .recv none, .distributor .recv, .distributor .recv, .distributor .recv,
       .handler ⟨"/b", []⟩, .distributor .recv, .distributor .recv]).1 0
    { ch := { dataqsiz := 100, buf := [⟨"/b", []⟩] },
      t := { ip := "10.0.0.1", port := 9000, writes := [⟨"/a", []⟩] },
      status := .Running } rfl).1

end OscRepeater
